import Mathlib

/-!
Shallow embedding of the core of the vmxray forensic filesystem library:
the ext2/ext3 driver (tsk3/fs/ext2fs.c) and the NTFS directory resolver
(tsk3/fs/ntfs_dent.c).  Pure functions below are translated directly from
the C source; positional image reads are modelled by function-valued fields
of the filesystem handle (the value a successful load would place in the
corresponding single-slot cache), and machine integers by Nat with explicit
reductions where C overflow semantics matter.

Layout: all definitions first, then the theorems.
-/

namespace Ext2

/-- The TSK metadata flag word, one Boolean per flag bit
(TSK_FS_META_FLAG_ALLOC / UNALLOC / USED / UNUSED / ORPHAN). -/
structure MetaFlags where
  alloc : Bool
  unalloc : Bool
  used : Bool
  unused : Bool
  orphan : Bool
deriving DecidableEq

/-- Flag canonicalisation performed by ext2fs_inode_walk before iterating
(ext2fs.c lines 713-733): ORPHAN forces UNALLOC|USED and clears
ALLOC|UNUSED; otherwise missing ALLOC/UNALLOC pairs and missing
USED/UNUSED pairs are both set. -/
def inode_walk_flag_canon (flags : MetaFlags) : MetaFlags :=
  if flags.orphan then
    { flags with unalloc := true, alloc := false, used := true, unused := false }
  else
    let f1 :=
      if flags.alloc = false ∧ flags.unalloc = false then
        { flags with alloc := true, unalloc := true }
      else flags
    if f1.used = false ∧ f1.unused = false then
      { f1 with used := true, unused := true }
    else f1

/-- The ext filesystem handle, restricted to the data the inode walker
consumes.  `imapBit g j` is bit `j` of the inode bitmap of group `g` (the
value ext2fs_imap_load places in the single-slot cache), `ctime i` is the
i_ctime field of inode `i` (the value ext2fs_dinode_load reads), and
`listInumNamed` is fs->list_inum_named (built by the external directory
layer when ORPHAN walks need it). -/
structure ExtFs where
  firstInum : Nat
  lastInum : Nat
  inodesPerGroup : Nat
  imapBit : Nat → Nat → Bool
  ctime : Nat → Nat
  listInumNamed : List Nat

/-- One iteration of the ext2fs_inode_walk loop body (ext2fs.c lines
769-847) for inode `inum`: compute the group and the bitmap base, apply
the allocated/unallocated restriction, the used/unused restriction and
the orphan check; `some inum` means the callback is invoked with metadata
address `inum` (the callback used here always returns TSK_WALK_CONT). -/
def inode_walk_visit (fs : ExtFs) (flags : MetaFlags) (inum : Nat) : Option Nat :=
  let grp := (inum - 1) / fs.inodesPerGroup
  let ibase := grp * fs.inodesPerGroup + 1
  let allocBit := fs.imapBit grp (inum - ibase)
  if ¬ (if allocBit then flags.alloc else flags.unalloc) then none
  else if ¬ (if fs.ctime inum ≠ 0 then flags.used else flags.unused) then none
  else if allocBit = false ∧ flags.orphan ∧ inum ∈ fs.listInumNamed then none
  else some inum

/-- ext2fs_inode_walk (ext2fs.c lines 676-876) with a callback that always
returns TSK_WALK_CONT, returning the list of metadata addresses passed to
the callback (`none` on a range error).  The virtual orphan-directory
inode `lastInum` is handled outside the loop: the loop runs to
`lastInum - 1` when the end of the range is `lastInum`, and the orphan
directory itself is delivered afterwards when the canonicalised flags
admit ALLOC and USED. -/
def ext2fs_inode_walk (fs : ExtFs) (startInum endInum : Nat)
    (flagsIn : MetaFlags) : Option (List Nat) :=
  if startInum < fs.firstInum ∨ startInum > fs.lastInum then none
  else if endInum < fs.firstInum ∨ endInum > fs.lastInum ∨ endInum < startInum then
    none
  else
    let flags := inode_walk_flag_canon flagsIn
    let endTmp := if endInum = fs.lastInum then endInum - 1 else endInum
    let delivered := (List.range' startInum (endTmp + 1 - startInum)).filterMap
        (inode_walk_visit fs flags)
    if endInum = fs.lastInum ∧ flags.alloc = true ∧ flags.used = true then
      some (delivered ++ [fs.lastInum])
    else some delivered

/-- The TSK block flag word, one Boolean per flag bit
(TSK_FS_BLOCK_FLAG_ALLOC / UNALLOC / META / CONT). -/
structure BlockFlags where
  alloc : Bool
  unalloc : Bool
  meta : Bool
  cont : Bool
deriving DecidableEq

/-- The ext filesystem handle data consumed by ext2fs_block_getflags.
`bmapBit g j` is bit `j` of the block bitmap of group `g` (the value
ext2fs_bmap_load places in the single-slot cache); the bg fields are the
group-descriptor words ext2fs_group_load caches. -/
structure ExtBlkFs where
  firstDataBlock : Nat
  blocksPerGroup : Nat
  lastBlock : Nat
  inodesPerGroup : Nat
  inodeSize : Nat
  blockSize : Nat
  bmapBit : Nat → Nat → Bool
  bgBlockBitmap : Nat → Nat
  bgInodeBitmap : Nat → Nat
  bgInodeTable : Nat → Nat

/-- Modelled from the spec: the macro ext2_cgbase_lcl (the ext header that
defines it is not in the repository).  First block of group g; spec
section 3 says bit i of the block bitmap of group g represents block
cgbase(g) + i, with groups of s_blocks_per_group blocks starting at
s_first_data_block. -/
def ext2_cgbase_lcl (fs : ExtBlkFs) (g : Nat) : Nat :=
  fs.blocksPerGroup * g + fs.firstDataBlock

/-- Modelled from the spec: the macro ext2_dtog_lcl (the ext header that
defines it is not in the repository): the group containing block d,
inverse of `ext2_cgbase_lcl`. -/
def ext2_dtog_lcl (fs : ExtBlkFs) (d : Nat) : Nat :=
  (d - fs.firstDataBlock) / fs.blocksPerGroup

/-- The INODE_TABLE_SIZE macro of ext2fs_block_getflags (ext2fs.c lines
929-931): blocks occupied by the per-group inode table. -/
def INODE_TABLE_SIZE (fs : ExtBlkFs) : Nat :=
  (fs.inodesPerGroup * fs.inodeSize - 1) / fs.blockSize + 1

/-- ext2fs_block_getflags (ext2fs.c lines 880-973).  A failed bitmap load
(the group descriptor offsets checked by ext2fs_group_load and
ext2fs_bmap_load exceed last_block) makes the C function return 0, i.e.
the empty flag word. -/
def ext2fs_block_getflags (fs : ExtBlkFs) (addr : Nat) : BlockFlags :=
  if addr = 0 then ⟨true, false, false, true⟩
  else if addr < fs.firstDataBlock then ⟨true, false, true, false⟩
  else
    let grp := ext2_dtog_lcl fs addr
    if fs.bgBlockBitmap grp > fs.lastBlock ∨ fs.bgInodeBitmap grp > fs.lastBlock ∨
        fs.bgInodeTable grp > fs.lastBlock then
      ⟨false, false, false, false⟩
    else
      let dbase := ext2_cgbase_lcl fs grp
      let dmin := fs.bgInodeTable grp + INODE_TABLE_SIZE fs
      let fl1 : BlockFlags :=
        if fs.bmapBit grp (addr - dbase) then ⟨true, false, false, false⟩
        else ⟨false, true, false, false⟩
      if (dbase ≤ addr ∧ addr < fs.bgBlockBitmap grp) ∨
          addr = fs.bgBlockBitmap grp ∨ addr = fs.bgInodeBitmap grp ∨
          (fs.bgInodeTable grp ≤ addr ∧ addr < dmin) then
        { fl1 with meta := true }
      else
        { fl1 with cont := true }

/-- TSK error-slot codes touched by the ext bitmap-cache loaders.
`imgLayer` stands for whatever code the image layer put in the slot when
tsk_fs_read itself failed (cnt < 0). -/
inductive TskErrno
  | noError
  | fsBlkNum
  | fsRead
  | fsArg
  | imgLayer
deriving DecidableEq

/-- Observable outcome of ext2fs_bmap_load / ext2fs_imap_load: the C
return value (0 success, 1 error), the cache generation tag after the
call (bmap_grp_num / imap_grp_num), and the error-slot code. -/
structure MapLoadResult where
  ret : Nat
  tag : Option Nat
  errno : TskErrno
deriving DecidableEq

/-- ext2fs_bmap_load (ext2fs.c lines 141-200), for the state where the
group descriptor is cached and the bitmap buffer is allocated.  `readCnt`
is the tsk_fs_read return value for the block-sized bitmap read (negative
means the read itself failed; any value below blockSize is a short read).
Note the short-read branch of the C function fills the error slot but
does not return: the tag is still updated and 0 is returned. -/
def ext2fs_bmap_load (grpNum : Nat) (bgBlockBitmap : Nat) (lastBlock : Nat)
    (blockSize : Nat) (readCnt : Int) (oldTag : Option Nat) : MapLoadResult :=
  if oldTag = some grpNum then ⟨0, oldTag, .noError⟩
  else if bgBlockBitmap > lastBlock then ⟨1, oldTag, .fsBlkNum⟩
  else if readCnt ≠ (blockSize : Int) then
    if readCnt ≥ 0 then ⟨0, some grpNum, .fsRead⟩
    else ⟨0, some grpNum, .imgLayer⟩
  else ⟨0, some grpNum, .noError⟩

/-- ext2fs_imap_load (ext2fs.c lines 207-267), same conventions as
`ext2fs_bmap_load`.  Here even the descriptor sanity check (inode bitmap
offset beyond last_block) fills the error slot without returning, and the
short-read branch likewise falls through to updating the tag and
returning 0. -/
def ext2fs_imap_load (grpNum : Nat) (bgInodeBitmap : Nat) (lastBlock : Nat)
    (blockSize : Nat) (readCnt : Int) (oldTag : Option Nat) : MapLoadResult :=
  if oldTag = some grpNum then ⟨0, oldTag, .noError⟩
  else
    let e0 : TskErrno := if bgInodeBitmap > lastBlock then .fsBlkNum else .noError
    if readCnt ≠ (blockSize : Int) then
      if readCnt ≥ 0 then ⟨0, some grpNum, .fsRead⟩
      else ⟨0, some grpNum, .imgLayer⟩
    else ⟨0, some grpNum, e0⟩

end Ext2

namespace Ntfs

/-- TSK_RETVAL_ENUM: TSK_OK / TSK_COR / TSK_ERR. -/
inductive TskRet
  | ok
  | cor
  | err
deriving DecidableEq

/-- is_time (ntfs_dent.c lines 271-289): sanity window for an NTFS
timestamp in 100-nanosecond units since 1601.  The macros
SEC_BTWN_1601_1970_DIV100 and SEC_BTWN_1601_2010_DIV100 are inlined. -/
def is_time (t : Nat) : Bool :=
  let secDiv100 := t / 1000000000
  if secDiv100 = 0 then false
  else if secDiv100 < (369 * 365 + 89) * 24 * 36 then false
  else if secDiv100 > (369 * 365 + 89) * 24 * 36 + (40 * 365 + 6) * 24 * 36 then
    false
  else true

/-- Modelled from the spec: the NTFS $FILE_NAME name-space constants
(the NTFS header defining them is not in the repository; spec section 6:
POSIX=0, WIN32=1, DOS=2, WINDOS=3). -/
def NTFS_FNAME_POSIX : Nat := 0

/-- Modelled from the spec: see NTFS_FNAME_POSIX. -/
def NTFS_FNAME_WIN32 : Nat := 1

/-- Modelled from the spec: see NTFS_FNAME_POSIX. -/
def NTFS_FNAME_DOS : Nat := 2

/-- Modelled from the spec: see NTFS_FNAME_POSIX. -/
def NTFS_FNAME_WINDOS : Nat := 3

/-- Modelled from the spec: sizeof(ntfs_attr_fname) (the NTFS header
defining the struct is not in the repository).  The $FILE_NAME stream is
66 bytes up to the name (code comment at ntfs_dent.c lines 488-491)
followed by the one-byte name placeholder of the C struct.  Only the loop
bound of ntfs_proc_idxentry consumes this constant; no claim depends on
its exact value. -/
def ntfs_attr_fname_sizeof : Nat := 67

/-- The NTFS filesystem handle data consumed by ntfs_proc_idxentry. -/
structure NtfsFs where
  firstInum : Nat
  lastInum : Nat

/-- View of the index-entry buffer handed to ntfs_proc_idxentry: each
field function returns the named field of the index entry (or of its
embedded $FILE_NAME stream) that starts at byte offset p of the buffer,
exactly as the corresponding tsk_getuNN / byte access would decode it. -/
structure IdxBuf where
  fileRef : Nat → Nat
  idxlen : Nat → Nat
  strlen : Nat → Nat
  nspace : Nat → Nat
  nlen : Nat → Nat
  allocFsize : Nat → Nat
  realFsize : Nat → Nat
  crtime : Nat → Nat
  atime : Nat → Nat
  mtime : Nat → Nat
  firstNameByte : Nat → Nat

/-- TSK_FS_NAME_FLAG_ALLOC / TSK_FS_NAME_FLAG_UNALLOC. -/
inductive NameFlag
  | alloc
  | unalloc
deriving DecidableEq

/-- One directory entry appended to the TSK_FS_DIR by ntfs_proc_idxentry:
the byte offset of the index entry it was decoded from, and the name
flag assigned at ntfs_dent.c lines 453-461. -/
structure DentOut where
  pos : Nat
  flag : NameFlag
deriving DecidableEq

/-- What one pass of the ntfs_proc_idxentry while-loop does at entry
offset p: leave the loop, advance without appending, or append one entry
and advance. -/
inductive IdxStep
  | exit
  | skip (next : Nat)
  | emit (e : DentOut) (next : Nat)
deriving DecidableEq

/-- The incr_entry advance of ntfs_proc_idxentry (ntfs_dent.c lines
479-502): a deleted entry (strlen == 0) advances by the reconstructed
length ((16 + 66 + 2*nlen) rounded up to 4), otherwise by idxlen.  The C
rounds the absolute pointer; the buffer base is 4-byte aligned (it is a
malloc result), so rounding the offset is equivalent. -/
def incr_entry (buf : IdxBuf) (p : Nat) : Nat :=
  if buf.strlen p = 0 then ((p + 16 + 66 + 2 * buf.nlen p + 3) / 4) * 4
  else p + buf.idxlen p

/-- One iteration of the ntfs_proc_idxentry while-loop (ntfs_dent.c lines
341-504) at entry offset p, with buffer length idxeLen and index-list
used length usedLen.  ntfs_dent_copy has no failure path (it always
returns 0) and tsk_fs_dir_add fails only on allocation failure, so both
are modelled as succeeding. -/
def proc_idxentry_step (fs : NtfsFs) (buf : IdxBuf) (isDel : Bool)
    (idxeLen usedLen : Nat) (p : Nat) : IdxStep :=
  if ¬ (p + 16 + ntfs_attr_fname_sizeof < idxeLen) then .exit
  else if buf.fileRef p > fs.lastInum ∨ buf.fileRef p < fs.firstInum ∨
      buf.idxlen p ≤ buf.strlen p ∨ buf.idxlen p % 4 ≠ 0 ∨
      buf.idxlen p > idxeLen then .skip (p + 4)
  else if (buf.strlen p = 0 ∨ p + buf.idxlen p > usedLen) ∧
      (buf.nspace p ≠ NTFS_FNAME_POSIX ∧ buf.nspace p ≠ NTFS_FNAME_WIN32 ∧
        buf.nspace p ≠ NTFS_FNAME_DOS ∧ buf.nspace p ≠ NTFS_FNAME_WINDOS) then
    .skip (p + 4)
  else if (buf.strlen p = 0 ∨ p + buf.idxlen p > usedLen) ∧
      (buf.allocFsize p < buf.realFsize p ∨ buf.nlen p = 0 ∨
        buf.firstNameByte p = 0) then
    .skip (p + 4)
  else if (buf.strlen p = 0 ∨ p + buf.idxlen p > usedLen) ∧
      (is_time (buf.crtime p) = false ∨ is_time (buf.atime p) = false ∨
        is_time (buf.mtime p) = false) then
    .skip (p + 4)
  else if buf.nspace p = NTFS_FNAME_DOS then .skip (incr_entry buf p)
  else
    .emit
      ⟨p,
        if isDel = true ∨ buf.strlen p = 0 ∨ p + buf.idxlen p > usedLen then
          .unalloc
        else .alloc⟩
      (incr_entry buf p)

/-- The ntfs_proc_idxentry while-loop, iterated with explicit fuel (every
step advances the offset by at least one byte, so idxeLen + 1 steps
always reach the loop exit); `acc` is the TSK_FS_DIR contents so far. -/
def proc_idxentry_loop (fs : NtfsFs) (buf : IdxBuf) (isDel : Bool)
    (idxeLen usedLen : Nat) : Nat → Nat → List DentOut → List DentOut
  | 0, _, acc => acc
  | fuel + 1, p, acc =>
    match proc_idxentry_step fs buf isDel idxeLen usedLen p with
    | .exit => acc
    | .skip next => proc_idxentry_loop fs buf isDel idxeLen usedLen fuel next acc
    | .emit e next =>
      proc_idxentry_loop fs buf isDel idxeLen usedLen fuel next (acc ++ [e])

/-- ntfs_proc_idxentry (ntfs_dent.c lines 306-508): returns the
TSK_RETVAL_ENUM value, the error-slot code and the final directory
contents (the C appends to the caller's TSK_FS_DIR in place). -/
def ntfs_proc_idxentry (fs : NtfsFs) (buf : IdxBuf) (isDel : Bool)
    (idxeLen usedLen : Nat) (dir : List DentOut) :
    TskRet × Ext2.TskErrno × List DentOut :=
  if idxeLen < usedLen then (.err, .fsArg, dir)
  else
    (.ok, .noError,
      proc_idxentry_loop fs buf isDel idxeLen usedLen (idxeLen + 1) 0 dir)

/-- tsk_getu16 over a byte buffer (NTFS is little-endian): the 16-bit
value at byte offset o. -/
def getu16 (b : List Nat) (o : Nat) : Nat :=
  b.getD o 0 + 256 * b.getD (o + 1) 0

/-- The two byte copies at ntfs_dent.c lines 586-587
(old_val++ = new_val++; then old_val = new_val): copy the two bytes at
offset src onto offset dst, reading the second source byte after the
first destination byte has been written, exactly as the C does. -/
def copy2 (b : List Nat) (dst src : Nat) : List Nat :=
  let b1 := b.set dst (b.getD src 0)
  b1.set (dst + 1) (b1.getD (src + 1) 0)

/-- Modelled from the spec: byte offset of upd_off in the NTFS index
record header (the NTFS header file is not in the repository; spec
section 6 lays the header out as magic(4 bytes) then upd_off then
upd_cnt, 16-bit each). -/
def idxrec_upd_off_offset : Nat := 4

/-- Modelled from the spec: byte offset of upd_cnt in the NTFS index
record header; see idxrec_upd_off_offset. -/
def idxrec_upd_cnt_offset : Nat := 6

/-- The sanity check of ntfs_fix_idxrec (ntfs_dent.c lines 533-540), with
C arithmetic: (upd_cnt - 1) * ssize_b is computed as a signed int and
compared against len after a cast to unsigned int. -/
def fix_idxrec_check (updCnt ssize len : Nat) : Bool :=
  decide (((((updCnt : Int) - 1) * (ssize : Int)) % (2 ^ 32 : Int)).toNat > len)

/-- The per-sector loop of ntfs_fix_idxrec (ntfs_dent.c lines 551-588):
for i in 1 .. upd_cnt - 1, the 16-bit value at offset i * ssize - 2 must
equal origSeq (else the function fails), and is replaced by the two bytes
of update-array element i, read live from the buffer at
updOff + 2 + (i - 1) * 2. -/
def fix_loop (ssize updOff origSeq updCnt : Nat) (i : Nat) (rec : List Nat) :
    Option (List Nat) :=
  if _h : i < updCnt then
    if getu16 rec (i * ssize - 2) ≠ origSeq then none
    else
      fix_loop ssize updOff origSeq updCnt (i + 1)
        (copy2 rec (i * ssize - 2) (updOff + 2 + (i - 1) * 2))
  else some rec
termination_by updCnt - i

/-- ntfs_fix_idxrec (ntfs_dent.c lines 519-591) over the record's bytes:
`none` models the return value 1 with TSK_ERR_FS_INODE_COR in the error
slot, `some rec` the repaired record and return value 0. -/
def ntfs_fix_idxrec (ssize : Nat) (rec : List Nat) (len : Nat) :
    Option (List Nat) :=
  let updCnt := getu16 rec idxrec_upd_cnt_offset
  let updOff := getu16 rec idxrec_upd_off_offset
  if fix_idxrec_check updCnt ssize len then none
  else fix_loop ssize updOff (getu16 rec updOff) updCnt 1 rec

/-- One NTFS_PAR_MAP node of the orphan map (ntfs_dent.c): a parent MFT
address and the child addresses collected for it.  The C keeps the nodes
as a singly-linked list; the spine is a Lean list here, and the growable
addrs array is a Lean list (the capacity bookkeeping of
ntfs_orphan_map_extend has no observable effect on the contents). -/
structure NTFS_PAR_MAP where
  par_addr : Nat
  addrs : List Nat
deriving DecidableEq

/-- ntfs_orphan_map_add (ntfs_dent.c lines 84-141): find the node with
this parent address, stopping early once a larger parent is seen; append
the child to the found node, or splice a fresh node in before the first
larger parent (or at the end of the list). -/
def ntfs_orphan_map_add : List NTFS_PAR_MAP → Nat → Nat → List NTFS_PAR_MAP
  | [], par, child => [⟨par, [child]⟩]
  | m :: rest, par, child =>
    if m.par_addr = par then ⟨m.par_addr, m.addrs ++ [child]⟩ :: rest
    else if m.par_addr > par then ⟨par, [child]⟩ :: m :: rest
    else m :: ntfs_orphan_map_add rest par child

/-- ntfs_orphan_map_get (ntfs_dent.c lines 149-164): walk the list,
returning the node whose parent address matches and giving up as soon as
a larger parent address is seen. -/
def ntfs_orphan_map_get : List NTFS_PAR_MAP → Nat → Option (List Nat)
  | [], _ => none
  | m :: rest, par =>
    if m.par_addr = par then some m.addrs
    else if m.par_addr > par then none
    else ntfs_orphan_map_get rest par

/-- The orphan map produced by a sequence of (parent, child) add
operations starting from the empty map (the state ntfs_orphan_act builds
up during the inode walk). -/
def ntfs_orphan_map_build (ops : List (Nat × Nat)) : List NTFS_PAR_MAP :=
  ops.foldl (fun acc pc => ntfs_orphan_map_add acc pc.1 pc.2) []

/-- Outcome data for one index record found by the $INDEX_ALLOCATION
buffer scan of ntfs_dir_open_meta: whether ntfs_fix_idxrec succeeds on
it, whether its index-list offsets pass the validity check, and the
ntfs_proc_idxentry result for its entry list. -/
structure IdxRecOutcome where
  fixupOk : Bool
  offsetsValid : Bool
  proc : TskRet
deriving DecidableEq

/-- Observable trace of the tail of ntfs_dir_open_meta: the value
returned, how many index records had their entry lists parsed, whether
the orphan-map lookup step (ntfs_dent.c lines 1074-1118) ran, and
whether the synthetic orphan-directory entry step (lines 1120-1137)
ran. -/
structure DirOpenOut where
  retval : TskRet
  recordsProcessed : Nat
  orphanLookupDone : Bool
  orphanDirEntryAdded : Bool
deriving DecidableEq

/-- The per-record processing of the $INDEX_ALLOCATION scan of
ntfs_dir_open_meta (ntfs_dent.c lines 918-1068, covering both the loop
records and the final record, whose control flow is identical): a fixup
failure returns TSK_COR at once (lines 956-959, 1025-1028), an offset
validation failure returns TSK_COR at once (lines 974-985, 1040-1051), a
TSK_ERR from ntfs_proc_idxentry returns TSK_ERR at once, and a TSK_COR
from ntfs_proc_idxentry downgrades retval_final and continues.  `inl`
carries an early return, `inr` the state reaching the code after the
scan. -/
def dir_open_rec_loop :
    List IdxRecOutcome → Nat → TskRet → DirOpenOut ⊕ (Nat × TskRet)
  | [], n, rv => .inr (n, rv)
  | r :: rest, n, rv =>
    if r.fixupOk = false then .inl ⟨.cor, n, false, false⟩
    else if r.offsetsValid = false then .inl ⟨.cor, n, false, false⟩
    else
      match r.proc with
      | .err => .inl ⟨.err, n + 1, false, false⟩
      | .cor => dir_open_rec_loop rest (n + 1) .cor
      | .ok => dir_open_rec_loop rest (n + 1) rv

/-- The tail of ntfs_dir_open_meta (ntfs_dent.c lines 816-1140), starting
from the ntfs_proc_idxentry call on $INDEX_ROOT: `rootProc` is that
call's result (TSK_ERR aborts, TSK_COR downgrades retval_final), `recs`
are the index records the $INDEX_ALLOCATION scan finds, and after the
scan the orphan map is built and consulted (always) and the synthetic
orphan-directory entry is appended when the target is the root
directory. -/
def ntfs_dir_open_meta_tail (isRoot : Bool) (rootProc : TskRet)
    (recs : List IdxRecOutcome) : DirOpenOut :=
  if rootProc = .err then ⟨.err, 0, false, false⟩
  else
    let retval0 := if rootProc = .cor then TskRet.cor else .ok
    match dir_open_rec_loop recs 0 retval0 with
    | .inl out => out
    | .inr (n, rv) => ⟨rv, n, true, isRoot⟩

end Ntfs

namespace Ext2

/-- With all four of ALLOC, UNALLOC, USED, UNUSED requested (and ORPHAN
absent), no filter ever rejects an inode. -/
theorem inode_walk_visit_all (fs : ExtFs) (inum : Nat) :
    inode_walk_visit fs ⟨true, true, true, true, false⟩ inum = some inum := by
  unfold inode_walk_visit
  simp

/-- Claim C1: for every ext filesystem handle, walking the range
[first_inum, last_inum] with flags ALLOC|UNALLOC|USED|UNUSED and a
callback that always returns CONT invokes the callback exactly once with
metadata address i for every i in [first_inum, last_inum - 1], and the
invocations occur in strictly ascending inode-number order. -/
theorem ext2fs_inode_walk_full_range (fs : ExtFs)
    (h : fs.firstInum < fs.lastInum) :
    ∃ l, ext2fs_inode_walk fs fs.firstInum fs.lastInum
        ⟨true, true, true, true, false⟩ = some l ∧
      (∀ i, fs.firstInum ≤ i → i ≤ fs.lastInum - 1 → l.count i = 1) ∧
      l.Pairwise (· < ·) := by
  have hcanon : inode_walk_flag_canon ⟨true, true, true, true, false⟩
      = ⟨true, true, true, true, false⟩ := rfl
  refine ⟨List.range' fs.firstInum (fs.lastInum - fs.firstInum) ++ [fs.lastInum],
    ?_, ?_, ?_⟩
  · have h1 : ¬ (fs.firstInum < fs.firstInum ∨ fs.firstInum > fs.lastInum) := by
      omega
    have h2 : ¬ (fs.lastInum < fs.firstInum ∨ fs.lastInum > fs.lastInum ∨
        fs.lastInum < fs.firstInum) := by omega
    have hfun : inode_walk_visit fs ⟨true, true, true, true, false⟩ = some :=
      funext (inode_walk_visit_all fs)
    unfold ext2fs_inode_walk
    rw [if_neg h1, if_neg h2]
    simp only [hcanon, hfun, if_pos rfl, List.filterMap_some, and_self, ite_true]
    have hn : fs.lastInum - 1 + 1 - fs.firstInum = fs.lastInum - fs.firstInum := by
      omega
    rw [hn]
  · intro i hi1 hi2
    rw [List.count_append]
    have hmem : i ∈ List.range' fs.firstInum (fs.lastInum - fs.firstInum) := by
      rw [List.mem_range'_1]; omega
    rw [List.count_eq_one_of_mem (List.nodup_range' _ _ 1 one_pos) hmem]
    have hnm : i ∉ [fs.lastInum] := by
      simp only [List.mem_singleton]; omega
    rw [List.count_eq_zero_of_not_mem hnm]
  · refine List.pairwise_append.mpr
      ⟨List.pairwise_lt_range' _ _ 1 one_pos, List.pairwise_singleton _ _, ?_⟩
    intro a ha b hb
    rw [List.mem_range'_1] at ha
    simp only [List.mem_singleton] at hb
    omega

/-- Witness for ext2fs_inode_walk_full_range at a concrete handle. -/
theorem ext2fs_inode_walk_full_range_witness :
    (⟨1, 3, 2, fun _ _ => true, fun _ => 1, []⟩ : ExtFs).firstInum <
      (⟨1, 3, 2, fun _ _ => true, fun _ => 1, []⟩ : ExtFs).lastInum ∧
    ∃ l, ext2fs_inode_walk ⟨1, 3, 2, fun _ _ => true, fun _ => 1, []⟩
        (⟨1, 3, 2, fun _ _ => true, fun _ => 1, []⟩ : ExtFs).firstInum
        (⟨1, 3, 2, fun _ _ => true, fun _ => 1, []⟩ : ExtFs).lastInum
        ⟨true, true, true, true, false⟩ = some l ∧
      (∀ i, (⟨1, 3, 2, fun _ _ => true, fun _ => 1, []⟩ : ExtFs).firstInum ≤ i →
        i ≤ (⟨1, 3, 2, fun _ _ => true, fun _ => 1, []⟩ : ExtFs).lastInum - 1 →
        l.count i = 1) ∧
      l.Pairwise (· < ·) :=
  ⟨by decide,
    ext2fs_inode_walk_full_range ⟨1, 3, 2, fun _ _ => true, fun _ => 1, []⟩
      (by decide)⟩

/-- Claim C6: before iterating, the ext inode walker canonicalises its
flag argument: with ORPHAN the result contains UNALLOC and USED and
neither ALLOC nor UNUSED; without ORPHAN, ALLOC and UNALLOC are both set
whenever neither was passed, and USED and UNUSED are both set whenever
neither was passed. -/
theorem inode_walk_flag_canon_spec (f : MetaFlags) :
    (f.orphan = true →
      (inode_walk_flag_canon f).unalloc = true ∧
      (inode_walk_flag_canon f).used = true ∧
      (inode_walk_flag_canon f).alloc = false ∧
      (inode_walk_flag_canon f).unused = false) ∧
    (f.orphan = false →
      ((f.alloc = false ∧ f.unalloc = false) →
        (inode_walk_flag_canon f).alloc = true ∧
        (inode_walk_flag_canon f).unalloc = true) ∧
      ((f.used = false ∧ f.unused = false) →
        (inode_walk_flag_canon f).used = true ∧
        (inode_walk_flag_canon f).unused = true)) := by
  obtain ⟨a, b, c, d, e⟩ := f
  cases a <;> cases b <;> cases c <;> cases d <;> cases e <;> decide

/-- Witness for inode_walk_flag_canon_spec at the ORPHAN flag word. -/
theorem inode_walk_flag_canon_spec_witness :
    (⟨false, false, false, false, true⟩ : MetaFlags).orphan = true ∧
    ((inode_walk_flag_canon ⟨false, false, false, false, true⟩).unalloc = true ∧
      (inode_walk_flag_canon ⟨false, false, false, false, true⟩).used = true ∧
      (inode_walk_flag_canon ⟨false, false, false, false, true⟩).alloc = false ∧
      (inode_walk_flag_canon ⟨false, false, false, false, true⟩).unused = false) :=
  ⟨rfl, (inode_walk_flag_canon_spec ⟨false, false, false, false, true⟩).1 rfl⟩

/-- Claim C2: for every block address in [first_block, last_block] (the
ext first_block is 0), ext2fs_block_getflags returns exactly one of ALLOC
and UNALLOC and exactly one of META and CONT, provided the group
descriptor passes the sanity checks the loads perform (offsets at most
last_block; a corrupt descriptor makes the C function return the empty
flag word 0 instead). -/
theorem ext2fs_block_getflags_exclusive (fs : ExtBlkFs) (b : Nat)
    (_hb : b ≤ fs.lastBlock)
    (h1 : fs.bgBlockBitmap (ext2_dtog_lcl fs b) ≤ fs.lastBlock)
    (h2 : fs.bgInodeBitmap (ext2_dtog_lcl fs b) ≤ fs.lastBlock)
    (h3 : fs.bgInodeTable (ext2_dtog_lcl fs b) ≤ fs.lastBlock) :
    (((ext2fs_block_getflags fs b).alloc = true ∧
        (ext2fs_block_getflags fs b).unalloc = false) ∨
      ((ext2fs_block_getflags fs b).alloc = false ∧
        (ext2fs_block_getflags fs b).unalloc = true)) ∧
    (((ext2fs_block_getflags fs b).meta = true ∧
        (ext2fs_block_getflags fs b).cont = false) ∨
      ((ext2fs_block_getflags fs b).meta = false ∧
        (ext2fs_block_getflags fs b).cont = true)) := by
  unfold ext2fs_block_getflags
  by_cases h0 : b = 0
  · simp [h0]
  rw [if_neg h0]
  by_cases hfd : b < fs.firstDataBlock
  · rw [if_pos hfd]
    simp
  rw [if_neg hfd, if_neg (by omega)]
  dsimp only
  split <;> split <;> simp

/-- Witness for ext2fs_block_getflags_exclusive at a concrete handle. -/
theorem ext2fs_block_getflags_exclusive_witness :
    (7 ≤ (⟨1, 8, 100, 16, 128, 1024, fun _ _ => true, fun _ => 3, fun _ => 4,
        fun _ => 5⟩ : ExtBlkFs).lastBlock ∧
      (⟨1, 8, 100, 16, 128, 1024, fun _ _ => true, fun _ => 3, fun _ => 4,
        fun _ => 5⟩ : ExtBlkFs).bgBlockBitmap
        (ext2_dtog_lcl ⟨1, 8, 100, 16, 128, 1024, fun _ _ => true, fun _ => 3,
          fun _ => 4, fun _ => 5⟩ 7) ≤ 100) ∧
    ((((ext2fs_block_getflags ⟨1, 8, 100, 16, 128, 1024, fun _ _ => true,
          fun _ => 3, fun _ => 4, fun _ => 5⟩ 7).alloc = true ∧
        (ext2fs_block_getflags ⟨1, 8, 100, 16, 128, 1024, fun _ _ => true,
          fun _ => 3, fun _ => 4, fun _ => 5⟩ 7).unalloc = false) ∨
      ((ext2fs_block_getflags ⟨1, 8, 100, 16, 128, 1024, fun _ _ => true,
          fun _ => 3, fun _ => 4, fun _ => 5⟩ 7).alloc = false ∧
        (ext2fs_block_getflags ⟨1, 8, 100, 16, 128, 1024, fun _ _ => true,
          fun _ => 3, fun _ => 4, fun _ => 5⟩ 7).unalloc = true)) ∧
    (((ext2fs_block_getflags ⟨1, 8, 100, 16, 128, 1024, fun _ _ => true,
          fun _ => 3, fun _ => 4, fun _ => 5⟩ 7).meta = true ∧
        (ext2fs_block_getflags ⟨1, 8, 100, 16, 128, 1024, fun _ _ => true,
          fun _ => 3, fun _ => 4, fun _ => 5⟩ 7).cont = false) ∨
      ((ext2fs_block_getflags ⟨1, 8, 100, 16, 128, 1024, fun _ _ => true,
          fun _ => 3, fun _ => 4, fun _ => 5⟩ 7).meta = false ∧
        (ext2fs_block_getflags ⟨1, 8, 100, 16, 128, 1024, fun _ _ => true,
          fun _ => 3, fun _ => 4, fun _ => 5⟩ 7).cont = true))) :=
  ⟨⟨by decide, by decide⟩,
    ext2fs_block_getflags_exclusive
      ⟨1, 8, 100, 16, 128, 1024, fun _ _ => true, fun _ => 3, fun _ => 4,
        fun _ => 5⟩ 7 (by decide) (by decide) (by decide) (by decide)⟩

/-- Claim C3: on a short read (0 <= cnt < block_size) the bitmap-cache
loaders fill the error slot with TSK_ERR_FS_READ but then still update
the cache generation tag and return 0 (success), instead of aborting with
a failure result as the claim and the functions' own doc comments
(return 1 on error) require.  Evaluated at a concrete short read: group
2, descriptor offsets within range, block size 1024, read returns 512. -/
theorem ext2fs_map_load_short_read_returns_success :
    ext2fs_bmap_load 2 5 100 1024 512 (some 0) = ⟨0, some 2, .fsRead⟩ ∧
    ext2fs_imap_load 2 6 100 1024 512 (some 0) = ⟨0, some 2, .fsRead⟩ := by
  constructor <;> rfl

end Ext2

namespace Ntfs

/-- Claim C10: invoked with a used length strictly greater than the buffer
length, ntfs_proc_idxentry returns the argument error (TSK_ERR with
TSK_ERR_FS_ARG) immediately, before examining any entry, and the
directory contents are unchanged. -/
theorem ntfs_proc_idxentry_arg_check (fs : NtfsFs) (buf : IdxBuf)
    (isDel : Bool) (idxeLen usedLen : Nat) (dir : List DentOut)
    (h : idxeLen < usedLen) :
    ntfs_proc_idxentry fs buf isDel idxeLen usedLen dir = (.err, .fsArg, dir) := by
  unfold ntfs_proc_idxentry
  rw [if_pos h]

/-- Witness for ntfs_proc_idxentry_arg_check at a concrete buffer. -/
theorem ntfs_proc_idxentry_arg_check_witness :
    10 < 20 ∧
    ntfs_proc_idxentry ⟨1, 100⟩
      ⟨fun _ => 5, fun _ => 96, fun _ => 1, fun _ => 1, fun _ => 4,
        fun _ => 8, fun _ => 4, fun _ => 0, fun _ => 0, fun _ => 0,
        fun _ => 65⟩
      false 10 20 [⟨0, .alloc⟩] = (.err, .fsArg, [⟨0, .alloc⟩]) :=
  ⟨by decide,
    ntfs_proc_idxentry_arg_check ⟨1, 100⟩
      ⟨fun _ => 5, fun _ => 96, fun _ => 1, fun _ => 1, fun _ => 4,
        fun _ => 8, fun _ => 4, fun _ => 0, fun _ => 0, fun _ => 0,
        fun _ => 65⟩
      false 10 20 [⟨0, .alloc⟩] (by decide)⟩

/-- Claim C4 (evaluation at the failing input): a fixup mismatch on the
first of two $INDEX_ALLOCATION records makes ntfs_dir_open_meta return
TSK_COR at once with no record parsed, no orphan-map lookup and no
synthetic orphan-directory entry, even for the root directory; whereas
corruption reported by ntfs_proc_idxentry on the same records is recorded
in retval_final and every remaining sub-step still runs. -/
theorem ntfs_dir_open_meta_fixup_mismatch_aborts :
    ntfs_dir_open_meta_tail true .ok
        [⟨false, true, .ok⟩, ⟨true, true, .ok⟩] = ⟨.cor, 0, false, false⟩ ∧
    ntfs_dir_open_meta_tail true .ok
        [⟨true, true, .cor⟩, ⟨true, true, .ok⟩] = ⟨.cor, 2, true, true⟩ := by
  constructor <;> rfl

/-- Claim C8: a candidate entry that is apparently deleted (strlen == 0 or
span beyond used_len) and has a creation, access or modification
timestamp rejected by is_time is not appended; the scan pointer advances
by exactly 4 bytes and the loop retries. -/
theorem proc_idxentry_step_time_reject (fs : NtfsFs) (buf : IdxBuf)
    (isDel : Bool) (idxeLen usedLen p : Nat)
    (hin : p + 16 + ntfs_attr_fname_sizeof < idxeLen)
    (hdel : buf.strlen p = 0 ∨ p + buf.idxlen p > usedLen)
    (htime : is_time (buf.crtime p) = false ∨ is_time (buf.atime p) = false ∨
      is_time (buf.mtime p) = false) :
    proc_idxentry_step fs buf isDel idxeLen usedLen p = .skip (p + 4) := by
  unfold proc_idxentry_step
  rw [if_neg (not_not_intro hin)]
  by_cases h1 : buf.fileRef p > fs.lastInum ∨ buf.fileRef p < fs.firstInum ∨
      buf.idxlen p ≤ buf.strlen p ∨ buf.idxlen p % 4 ≠ 0 ∨
      buf.idxlen p > idxeLen
  · rw [if_pos h1]
  rw [if_neg h1]
  by_cases h2 : buf.nspace p ≠ NTFS_FNAME_POSIX ∧ buf.nspace p ≠ NTFS_FNAME_WIN32 ∧
      buf.nspace p ≠ NTFS_FNAME_DOS ∧ buf.nspace p ≠ NTFS_FNAME_WINDOS
  · rw [if_pos ⟨hdel, h2⟩]
  rw [if_neg (fun hh => h2 hh.2)]
  by_cases h3 : buf.allocFsize p < buf.realFsize p ∨ buf.nlen p = 0 ∨
      buf.firstNameByte p = 0
  · rw [if_pos ⟨hdel, h3⟩]
  rw [if_neg (fun hh => h3 hh.2)]
  rw [if_pos ⟨hdel, htime⟩]

/-- Witness for proc_idxentry_step_time_reject: an entry whose span runs
past used_len and whose timestamps are zero is skipped with a 4-byte
advance. -/
theorem proc_idxentry_step_time_reject_witness :
    (0 + 16 + ntfs_attr_fname_sizeof < 100 ∧
      (0 : Nat) + 96 > 50 ∧
      is_time 0 = false) ∧
    proc_idxentry_step ⟨1, 100⟩
      ⟨fun _ => 5, fun _ => 96, fun _ => 1, fun _ => 1, fun _ => 4,
        fun _ => 8, fun _ => 4, fun _ => 0, fun _ => 0, fun _ => 0,
        fun _ => 65⟩
      false 100 50 0 = .skip (0 + 4) :=
  ⟨⟨by decide, by decide, by decide⟩,
    proc_idxentry_step_time_reject ⟨1, 100⟩
      ⟨fun _ => 5, fun _ => 96, fun _ => 1, fun _ => 1, fun _ => 4,
        fun _ => 8, fun _ => 4, fun _ => 0, fun _ => 0, fun _ => 0,
        fun _ => 65⟩
      false 100 50 0 (by decide) (Or.inr (by decide)) (Or.inl (by decide))⟩

end Ntfs

namespace Ntfs

/-- Entries present after running the ntfs_proc_idxentry loop either were
already in the accumulator or were emitted by some iteration step. -/
theorem proc_idxentry_loop_mem (fs : NtfsFs) (buf : IdxBuf) (isDel : Bool)
    (idxeLen usedLen : Nat) :
    ∀ fuel p acc e,
      e ∈ proc_idxentry_loop fs buf isDel idxeLen usedLen fuel p acc →
      e ∈ acc ∨
        ∃ q next, proc_idxentry_step fs buf isDel idxeLen usedLen q =
          .emit e next := by
  intro fuel
  induction fuel with
  | zero => intro p acc e h; exact Or.inl h
  | succ n ih =>
    intro p acc e h
    unfold proc_idxentry_loop at h
    cases hs : proc_idxentry_step fs buf isDel idxeLen usedLen p with
    | exit => rw [hs] at h; exact Or.inl h
    | skip next => rw [hs] at h; exact ih next acc e h
    | emit e2 next =>
      rw [hs] at h
      rcases ih next (acc ++ [e2]) e h with h1 | h2
      · rcases List.mem_append.mp h1 with h3 | h4
        · exact Or.inl h3
        · rw [List.mem_singleton] at h4
          subst h4
          exact Or.inr ⟨p, next, hs⟩
      · exact Or.inr h2

/-- An emitted entry records the offset it was decoded from, and its flag
is UNALLOC exactly under the is_deleted / strlen == 0 / span-beyond-used
condition of ntfs_dent.c lines 453-461. -/
theorem proc_idxentry_step_emit_flag (fs : NtfsFs) (buf : IdxBuf)
    (isDel : Bool) (idxeLen usedLen q next : Nat) (e : DentOut)
    (h : proc_idxentry_step fs buf isDel idxeLen usedLen q = .emit e next) :
    e.pos = q ∧
      e.flag = (if isDel = true ∨ buf.strlen q = 0 ∨
          q + buf.idxlen q > usedLen then NameFlag.unalloc
        else NameFlag.alloc) := by
  unfold proc_idxentry_step at h
  split at h
  · simp at h
  split at h
  · simp at h
  split at h
  · simp at h
  split at h
  · simp at h
  split at h
  · simp at h
  split at h
  · simp at h
  rw [IdxStep.emit.injEq] at h
  obtain ⟨h1, -⟩ := h
  subst h1
  exact ⟨rfl, rfl⟩

/-- Claim C7: every index entry the parser appends to the directory is
flagged UNALLOC if the caller's is_deleted flag is set, or the entry's
strlen is 0, or its span (start plus idxlen) extends beyond used_len, and
ALLOC in every other case. -/
theorem ntfs_proc_idxentry_flag_rule (fs : NtfsFs) (buf : IdxBuf)
    (isDel : Bool) (idxeLen usedLen : Nat) (dir : List DentOut) :
    ∀ e ∈ (ntfs_proc_idxentry fs buf isDel idxeLen usedLen dir).2.2,
      e ∈ dir ∨
        e.flag = (if isDel = true ∨ buf.strlen e.pos = 0 ∨
            e.pos + buf.idxlen e.pos > usedLen then NameFlag.unalloc
          else NameFlag.alloc) := by
  intro e he
  unfold ntfs_proc_idxentry at he
  split at he
  · exact Or.inl he
  · rcases proc_idxentry_loop_mem fs buf isDel idxeLen usedLen
        (idxeLen + 1) 0 dir e he with h | ⟨q, next, hq⟩
    · exact Or.inl h
    · obtain ⟨hpos, hflag⟩ :=
        proc_idxentry_step_emit_flag fs buf isDel idxeLen usedLen q next e hq
      subst hpos
      exact Or.inr hflag

/-- Witness for ntfs_proc_idxentry_flag_rule: a concrete run appends the
entry at offset 0 with flag ALLOC, and the flag rule holds for it. -/
theorem ntfs_proc_idxentry_flag_rule_witness :
    (⟨0, .alloc⟩ : DentOut) ∈
      (ntfs_proc_idxentry ⟨1, 100⟩
        ⟨fun _ => 5, fun _ => 96, fun _ => 1, fun _ => 1, fun _ => 4,
          fun _ => 8, fun _ => 4, fun _ => 0, fun _ => 0, fun _ => 0,
          fun _ => 65⟩
        false 100 100 []).2.2 ∧
    ((⟨0, .alloc⟩ : DentOut) ∈ ([] : List DentOut) ∨
      (⟨0, .alloc⟩ : DentOut).flag =
        (if false = true ∨
            (⟨fun _ => 5, fun _ => 96, fun _ => 1, fun _ => 1, fun _ => 4,
              fun _ => 8, fun _ => 4, fun _ => 0, fun _ => 0, fun _ => 0,
              fun _ => 65⟩ : IdxBuf).strlen (⟨0, .alloc⟩ : DentOut).pos = 0 ∨
            (⟨0, .alloc⟩ : DentOut).pos +
              (⟨fun _ => 5, fun _ => 96, fun _ => 1, fun _ => 1, fun _ => 4,
                fun _ => 8, fun _ => 4, fun _ => 0, fun _ => 0, fun _ => 0,
                fun _ => 65⟩ : IdxBuf).idxlen (⟨0, .alloc⟩ : DentOut).pos >
              100 then NameFlag.unalloc
          else NameFlag.alloc)) :=
  ⟨by decide,
    ntfs_proc_idxentry_flag_rule ⟨1, 100⟩
      ⟨fun _ => 5, fun _ => 96, fun _ => 1, fun _ => 1, fun _ => 4,
        fun _ => 8, fun _ => 4, fun _ => 0, fun _ => 0, fun _ => 0,
        fun _ => 65⟩
      false 100 100 [] ⟨0, .alloc⟩ (by decide)⟩

end Ntfs

namespace Ntfs

/-- Parent addresses present after an add are the old ones plus possibly
the added parent. -/
theorem orphan_map_add_pars (m : List NTFS_PAR_MAP) (p c : Nat) :
    ∀ q ∈ (ntfs_orphan_map_add m p c).map NTFS_PAR_MAP.par_addr,
      q ∈ m.map NTFS_PAR_MAP.par_addr ∨ q = p := by
  induction m with
  | nil =>
    intro q hq
    simp [ntfs_orphan_map_add] at hq
    exact Or.inr hq
  | cons m0 rest ih =>
    intro q hq
    unfold ntfs_orphan_map_add at hq
    split at hq
    · simp only [List.map_cons, List.mem_cons] at hq ⊢
      rcases hq with h | h
      · exact Or.inl (Or.inl h)
      · exact Or.inl (Or.inr h)
    · split at hq
      · simp only [List.map_cons, List.mem_cons] at hq ⊢
        rcases hq with h | h | h
        · exact Or.inr h
        · exact Or.inl (Or.inl h)
        · exact Or.inl (Or.inr h)
      · simp only [List.map_cons, List.mem_cons] at hq ⊢
        rcases hq with h | h
        · exact Or.inl (Or.inl h)
        · rcases ih q h with h2 | h2
          · exact Or.inl (Or.inr h2)
          · exact Or.inr h2

/-- ntfs_orphan_map_add preserves the strictly ascending parent order of
the linked structure. -/
theorem orphan_map_add_sorted (m : List NTFS_PAR_MAP) (p c : Nat)
    (h : (m.map NTFS_PAR_MAP.par_addr).Pairwise (· < ·)) :
    ((ntfs_orphan_map_add m p c).map NTFS_PAR_MAP.par_addr).Pairwise
      (· < ·) := by
  induction m with
  | nil => simp [ntfs_orphan_map_add]
  | cons m0 rest ih =>
    rw [List.map_cons, List.pairwise_cons] at h
    obtain ⟨h0, h1⟩ := h
    unfold ntfs_orphan_map_add
    split
    · rw [List.map_cons, List.pairwise_cons]
      exact ⟨h0, h1⟩
    · split
      · next hne hgt =>
        rw [List.map_cons, List.pairwise_cons]
        dsimp only
        constructor
        · intro b hb
          rw [List.map_cons, List.mem_cons] at hb
          rcases hb with hb | hb
          · omega
          · have := h0 b hb
            omega
        · rw [List.map_cons, List.pairwise_cons]
          exact ⟨h0, h1⟩
      · next hne hle =>
        rw [List.map_cons, List.pairwise_cons]
        constructor
        · intro b hb
          rcases orphan_map_add_pars rest p c b hb with h2 | h2
          · exact h0 b h2
          · omega
        · exact ih h1

/-- Adding (p, c) appends c to the bucket ntfs_orphan_map_get finds for
p. -/
theorem orphan_map_get_add_self (m : List NTFS_PAR_MAP) (p c : Nat) :
    ntfs_orphan_map_get (ntfs_orphan_map_add m p c) p =
      some ((ntfs_orphan_map_get m p).getD [] ++ [c]) := by
  induction m with
  | nil => simp [ntfs_orphan_map_add, ntfs_orphan_map_get]
  | cons m0 rest ih =>
    unfold ntfs_orphan_map_add
    split
    · next heq =>
      unfold ntfs_orphan_map_get
      rw [if_pos heq, if_pos heq]
      simp
    · next hne =>
      split
      · next hgt =>
        unfold ntfs_orphan_map_get
        rw [if_pos rfl, if_neg hne, if_pos hgt]
        simp
      · next hle =>
        unfold ntfs_orphan_map_get
        rw [if_neg hne, if_neg hle, if_neg hne, if_neg hle]
        exact ih

/-- Adding (p, c) leaves every other parent's lookup unchanged. -/
theorem orphan_map_get_add_ne (m : List NTFS_PAR_MAP) (p c q : Nat)
    (hq : q ≠ p) :
    ntfs_orphan_map_get (ntfs_orphan_map_add m p c) q =
      ntfs_orphan_map_get m q := by
  induction m with
  | nil =>
    unfold ntfs_orphan_map_add ntfs_orphan_map_get
    rw [if_neg (fun hh => hq hh.symm)]
    split
    · rfl
    · rfl
  | cons m0 rest ih =>
    unfold ntfs_orphan_map_add
    split
    · next heq =>
      unfold ntfs_orphan_map_get
      dsimp only
      have hne2 : ¬ m0.par_addr = q := by omega
      rw [if_neg hne2, if_neg hne2]
    · next hne =>
      split
      · next hgt =>
        by_cases hpq : p > q
        · unfold ntfs_orphan_map_get
          rw [if_neg (fun hh => hq hh.symm), if_pos hpq]
          rw [if_neg (by omega : ¬ m0.par_addr = q), if_pos (by omega)]
        · unfold ntfs_orphan_map_get
          rw [if_neg (fun hh => hq hh.symm), if_neg hpq]
          rfl
      · next hle =>
        unfold ntfs_orphan_map_get
        by_cases h0 : m0.par_addr = q
        · rw [if_pos h0, if_pos h0]
        · rw [if_neg h0, if_neg h0]
          by_cases h1 : m0.par_addr > q
          · rw [if_pos h1, if_pos h1]
          · rw [if_neg h1, if_neg h1]
            exact ih

/-- Lookup of a parent no node carries returns nothing. -/
theorem orphan_map_get_none (m : List NTFS_PAR_MAP) (q : Nat)
    (h : ∀ nd ∈ m, nd.par_addr ≠ q) : ntfs_orphan_map_get m q = none := by
  induction m with
  | nil => rfl
  | cons m0 rest ih =>
    unfold ntfs_orphan_map_get
    rw [if_neg (h m0 (List.mem_cons_self m0 rest))]
    split
    · rfl
    · exact ih fun nd hnd => h nd (List.mem_cons_of_mem m0 hnd)

/-- In an ascending map, lookup of a node's parent address returns that
node's bucket. -/
theorem orphan_map_get_mem (m : List NTFS_PAR_MAP) (nd : NTFS_PAR_MAP)
    (hs : (m.map NTFS_PAR_MAP.par_addr).Pairwise (· < ·)) (hmem : nd ∈ m) :
    ntfs_orphan_map_get m nd.par_addr = some nd.addrs := by
  induction m with
  | nil => cases hmem
  | cons m0 rest ih =>
    rw [List.map_cons, List.pairwise_cons] at hs
    obtain ⟨h0, h1⟩ := hs
    rcases List.mem_cons.mp hmem with h | h
    · subst h
      unfold ntfs_orphan_map_get
      rw [if_pos rfl]
    · have hlt : m0.par_addr < nd.par_addr :=
        h0 nd.par_addr (List.mem_map.mpr ⟨nd, h, rfl⟩)
      unfold ntfs_orphan_map_get
      rw [if_neg (by omega), if_neg (by omega)]
      exact ih h1 h

/-- Invariant of the add fold: sortedness is preserved and every bucket
collects exactly the children added for its parent, in order. -/
theorem orphan_map_fold_inv (ops : List (Nat × Nat)) :
    ∀ m, (m.map NTFS_PAR_MAP.par_addr).Pairwise (· < ·) →
      ((ops.foldl (fun acc pc => ntfs_orphan_map_add acc pc.1 pc.2) m).map
          NTFS_PAR_MAP.par_addr).Pairwise (· < ·) ∧
      ∀ p, (ntfs_orphan_map_get
            (ops.foldl (fun acc pc => ntfs_orphan_map_add acc pc.1 pc.2) m)
            p).getD [] =
          (ntfs_orphan_map_get m p).getD [] ++
            (ops.filter (fun pc => pc.1 == p)).map Prod.snd := by
  induction ops with
  | nil =>
    intro m hm
    refine ⟨hm, fun p => ?_⟩
    simp
  | cons op rest ih =>
    intro m hm
    rw [List.foldl_cons]
    obtain ⟨ih1, ih2⟩ :=
      ih (ntfs_orphan_map_add m op.1 op.2) (orphan_map_add_sorted m op.1 op.2 hm)
    refine ⟨ih1, fun p => ?_⟩
    rw [ih2 p]
    by_cases hp : op.1 = p
    · subst hp
      rw [orphan_map_get_add_self]
      rw [List.filter_cons_of_pos (by simp), List.map_cons]
      simp
    · rw [orphan_map_get_add_ne m op.1 op.2 p (fun hh => hp hh.symm)]
      rw [List.filter_cons_of_neg (by simp [hp])]

/-- Claim C9: every sequence of ntfs_orphan_map_add operations starting
from the empty map leaves the orphan map a list of pairwise distinct
parent addresses in strictly ascending order, each bucket holding exactly
the children added for its parent in order of addition; and
ntfs_orphan_map_get returns the bucket whose parent address equals the
query when one exists and nothing otherwise. -/
theorem ntfs_orphan_map_spec (ops : List (Nat × Nat)) :
    ((ntfs_orphan_map_build ops).map NTFS_PAR_MAP.par_addr).Pairwise (· < ·) ∧
    (∀ p, (ntfs_orphan_map_get (ntfs_orphan_map_build ops) p).getD [] =
      (ops.filter (fun pc => pc.1 == p)).map Prod.snd) ∧
    (∀ nd ∈ ntfs_orphan_map_build ops,
      ntfs_orphan_map_get (ntfs_orphan_map_build ops) nd.par_addr =
        some nd.addrs) ∧
    (∀ p, (∀ nd ∈ ntfs_orphan_map_build ops, nd.par_addr ≠ p) →
      ntfs_orphan_map_get (ntfs_orphan_map_build ops) p = none) := by
  obtain ⟨h1, h2⟩ := orphan_map_fold_inv ops [] (by simp)
  refine ⟨h1, fun p => ?_, fun nd hnd => orphan_map_get_mem _ nd h1 hnd,
    fun p hp => orphan_map_get_none _ p hp⟩
  have := h2 p
  simpa [ntfs_orphan_map_build, ntfs_orphan_map_get] using this

/-- Witness for ntfs_orphan_map_spec at a concrete add sequence. -/
theorem ntfs_orphan_map_spec_witness :
    (⟨3, [7]⟩ : NTFS_PAR_MAP) ∈ ntfs_orphan_map_build [(5, 10), (3, 7), (5, 11)] ∧
    ntfs_orphan_map_get (ntfs_orphan_map_build [(5, 10), (3, 7), (5, 11)])
        (⟨3, [7]⟩ : NTFS_PAR_MAP).par_addr = some (⟨3, [7]⟩ : NTFS_PAR_MAP).addrs :=
  ⟨by decide,
    (ntfs_orphan_map_spec [(5, 10), (3, 7), (5, 11)]).2.2.1 ⟨3, [7]⟩ (by decide)⟩

end Ntfs

namespace Ntfs

/-- Reading a just-written byte back. -/
theorem getD_set_self (l : List Nat) (o v : Nat) (h : o < l.length) :
    (l.set o v).getD o 0 = v := by
  rw [List.getD_eq_getElem?_getD, List.getElem?_set_eq_of_lt _ h]
  rfl

/-- Writing one byte leaves the others unchanged. -/
theorem getD_set_ne (l : List Nat) (o p v : Nat) (h : o ≠ p) :
    (l.set o v).getD p 0 = l.getD p 0 := by
  rw [List.getD_eq_getElem?_getD, List.getD_eq_getElem?_getD,
    List.getElem?_set_ne h]

/-- The two-byte copy preserves the buffer length. -/
theorem copy2_length (b : List Nat) (dst src : Nat) :
    (copy2 b dst src).length = b.length := by
  simp [copy2]

/-- Bytes away from the destination are unchanged by copy2. -/
theorem getD_copy2_ne (b : List Nat) (dst src p : Nat) (h1 : p ≠ dst)
    (h2 : p ≠ dst + 1) : (copy2 b dst src).getD p 0 = b.getD p 0 := by
  unfold copy2
  rw [getD_set_ne _ _ _ _ (fun hh => h2 hh.symm),
    getD_set_ne _ _ _ _ (fun hh => h1 hh.symm)]

/-- A 16-bit read away from the destination is unchanged by copy2. -/
theorem getu16_copy2_ne (b : List Nat) (dst src p : Nat) (h1 : p ≠ dst)
    (h2 : p ≠ dst + 1) (h3 : p + 1 ≠ dst) (h4 : p + 1 ≠ dst + 1) :
    getu16 (copy2 b dst src) p = getu16 b p := by
  unfold getu16
  rw [getD_copy2_ne b dst src p h1 h2, getD_copy2_ne b dst src (p + 1) h3 h4]


/-- Reading the destination of a non-overlapping copy2 yields the
source value. -/
theorem getu16_copy2_self (b : List Nat) (dst src : Nat)
    (hlen : dst + 1 < b.length) (_h1 : src ≠ dst) (h2 : src + 1 ≠ dst) :
    getu16 (copy2 b dst src) dst = getu16 b src := by
  unfold copy2 getu16
  rw [getD_set_ne _ _ _ _ (by omega), getD_set_self _ _ _ (by omega),
    getD_set_self _ _ _ (by simpa using hlen),
    getD_set_ne _ _ _ _ (fun hh => h2 hh.symm)]

/-- A byte of a well-formed buffer is below 256. -/
theorem getD_lt_256 (b : List Nat) (o : Nat) (hb : ∀ x ∈ b, x < 256) :
    b.getD o 0 < 256 := by
  rw [List.getD_eq_getElem?_getD]
  cases heq : b[o]? with
  | none => simp
  | some v =>
    simp only [Option.getD_some]
    exact hb v (List.getElem?_mem heq)

/-- A 16-bit read of a well-formed buffer is below 65536. -/
theorem getu16_lt (b : List Nat) (o : Nat) (hb : ∀ x ∈ b, x < 256) :
    getu16 b o < 65536 := by
  unfold getu16
  have := getD_lt_256 b o hb
  have := getD_lt_256 b (o + 1) hb
  omega

/-- For upd_cnt at least 1 and no 32-bit overflow, the C sanity check of
ntfs_fix_idxrec is the plain comparison (upd_cnt - 1) * ssize > len. -/
theorem fix_idxrec_check_eq (updCnt ssize len : Nat) (h1 : 1 ≤ updCnt)
    (h2 : (updCnt - 1) * ssize < 2 ^ 32) :
    fix_idxrec_check updCnt ssize len = decide ((updCnt - 1) * ssize > len) := by
  unfold fix_idxrec_check
  have hcast : ((updCnt : Int) - 1) * (ssize : Int) =
      (((updCnt - 1) * ssize : Nat) : Int) := by
    push_cast
    rw [Nat.cast_sub h1]
    push_cast
    ring
  rw [hcast, Int.emod_eq_of_lt (by positivity) (by exact_mod_cast h2)]
  rfl

/-- Behaviour of the ntfs_fix_idxrec sector loop from position i: a
mismatching sector tail (against the original record) yields failure,
and if every remaining tail matches, the loop succeeds with every tail
replaced by its update-array element. -/
theorem fix_loop_spec (ssize updOff updCnt origSeq : Nat) (rec0 : List Nat)
    (hss : 2 ≤ ssize) (hlay : updOff + 2 * updCnt ≤ ssize - 2)
    (hbound : (updCnt - 1) * ssize ≤ rec0.length) :
    ∀ k i rec, updCnt - i = k → 1 ≤ i →
      rec.length = rec0.length →
      (∀ p, p + 3 ≤ ssize → rec.getD p 0 = rec0.getD p 0) →
      (∀ p, i * ssize - 2 ≤ p → rec.getD p 0 = rec0.getD p 0) →
      (∀ j, 1 ≤ j → j < i →
        getu16 rec (j * ssize - 2) = getu16 rec0 (updOff + 2 + (j - 1) * 2)) →
      ((∃ j, i ≤ j ∧ j < updCnt ∧ getu16 rec0 (j * ssize - 2) ≠ origSeq) →
        fix_loop ssize updOff origSeq updCnt i rec = none) ∧
      ((∀ j, i ≤ j → j < updCnt → getu16 rec0 (j * ssize - 2) = origSeq) →
        ∃ rec2, fix_loop ssize updOff origSeq updCnt i rec = some rec2 ∧
          rec2.length = rec0.length ∧
          ∀ j, 1 ≤ j → j < updCnt →
            getu16 rec2 (j * ssize - 2) =
              getu16 rec0 (updOff + 2 + (j - 1) * 2)) := by
  intro k
  induction k with
  | zero =>
    intro i rec hk hi hlen _hB hC hD
    have hge : updCnt ≤ i := by omega
    rw [fix_loop, dif_neg (by omega)]
    constructor
    · rintro ⟨j, hj1, hj2, -⟩
      omega
    · intro _
      exact ⟨rec, rfl, hlen, fun j hj1 hj2 => hD j hj1 (by omega)⟩
  | succ n ih =>
    intro i rec hk hi hlen hB hC hD
    have hlt : i < updCnt := by omega
    have hsi : ssize ≤ i * ssize := Nat.le_mul_of_pos_left ssize hi
    have hii : i * ssize ≤ (updCnt - 1) * ssize :=
      Nat.mul_le_mul_right ssize (by omega)
    have hcur : getu16 rec (i * ssize - 2) = getu16 rec0 (i * ssize - 2) := by
      unfold getu16
      rw [hC _ (le_refl _), hC _ (by omega)]
    rw [fix_loop, dif_pos hlt]
    by_cases hmatch : getu16 rec0 (i * ssize - 2) = origSeq
    · rw [if_neg (by rw [hcur]; exact not_not_intro hmatch)]
      -- the copy for sector i
      have hsrc1 : updOff + 2 + (i - 1) * 2 + 4 ≤ ssize := by omega
      have hdst : i * ssize - 2 + 1 < rec.length := by omega
      have hsep : updOff + 2 + (i - 1) * 2 + 1 < i * ssize - 2 := by omega
      have hnext : (i + 1) * ssize = i * ssize + ssize := by ring
      obtain ⟨ihb, ihc⟩ := ih (i + 1)
        (copy2 rec (i * ssize - 2) (updOff + 2 + (i - 1) * 2))
        (by omega) (by omega)
        (by rw [copy2_length]; exact hlen)
        (fun p hp => by
          rw [getD_copy2_ne _ _ _ _ (by omega) (by omega)]
          exact hB p hp)
        (fun p hp => by
          rw [getD_copy2_ne _ _ _ _ (by omega) (by omega)]
          exact hC p (by omega))
        (fun j hj1 hj2 => by
          by_cases hji : j = i
          · subst hji
            rw [getu16_copy2_self _ _ _ hdst (by omega) (by omega)]
            unfold getu16
            rw [hB _ (by omega), hB _ (by omega)]
          · have hjlt : j < i := by omega
            have hjs : j * ssize ≤ (i - 1) * ssize :=
              Nat.mul_le_mul_right ssize (by omega)
            have hi1 : (i - 1) * ssize + ssize = i * ssize := by
              have : i - 1 + 1 = i := by omega
              calc (i - 1) * ssize + ssize = (i - 1 + 1) * ssize := by ring
                _ = i * ssize := by rw [this]
            rw [getu16_copy2_ne _ _ _ _ (by omega) (by omega) (by omega)
              (by omega)]
            exact hD j hj1 hjlt)
      constructor
      · rintro ⟨j, hj1, hj2, hj3⟩
        have hji : j ≠ i := fun hh => hj3 (hh ▸ hmatch)
        exact ihb ⟨j, by omega, hj2, hj3⟩
      · intro hall
        exact ihc fun j hj1 hj2 => hall j (by omega) hj2
    · rw [if_pos (by rw [hcur]; exact hmatch)]
      constructor
      · intro _; rfl
      · intro hall
        exact absurd (hall i (le_refl i) hlt) hmatch

/-- Claim C5: NTFS fixup on an index record fails when
(upd_cnt - 1) * sector_size exceeds the record length; otherwise, for
each i in 1 .. upd_cnt - 1, the 16-bit value at byte offset
i * sector_size - 2 must equal the first update-array element, a
mismatch at any sector makes it fail with CORRUPT, and on success every
such tail value has been replaced by update-array element i.  The
hypotheses state the standard record layout: the update array lies
before the first sector tail and upd_cnt is at least 1. -/
theorem ntfs_fix_idxrec_spec (ssize : Nat) (rec : List Nat) (len : Nat)
    (hss : 2 ≤ ssize) (hs2 : ssize ≤ 65536)
    (hbytes : ∀ x ∈ rec, x < 256)
    (hlen : rec.length = len)
    (hcnt : 1 ≤ getu16 rec idxrec_upd_cnt_offset)
    (hlay : getu16 rec idxrec_upd_off_offset +
        2 * getu16 rec idxrec_upd_cnt_offset ≤ ssize - 2) :
    ((getu16 rec idxrec_upd_cnt_offset - 1) * ssize > len →
      ntfs_fix_idxrec ssize rec len = none) ∧
    ((getu16 rec idxrec_upd_cnt_offset - 1) * ssize ≤ len →
      ((∃ j, 1 ≤ j ∧ j < getu16 rec idxrec_upd_cnt_offset ∧
          getu16 rec (j * ssize - 2) ≠
            getu16 rec (getu16 rec idxrec_upd_off_offset)) →
        ntfs_fix_idxrec ssize rec len = none) ∧
      ((∀ j, 1 ≤ j → j < getu16 rec idxrec_upd_cnt_offset →
          getu16 rec (j * ssize - 2) =
            getu16 rec (getu16 rec idxrec_upd_off_offset)) →
        ∃ rec2, ntfs_fix_idxrec ssize rec len = some rec2 ∧
          ∀ j, 1 ≤ j → j < getu16 rec idxrec_upd_cnt_offset →
            getu16 rec2 (j * ssize - 2) =
              getu16 rec
                (getu16 rec idxrec_upd_off_offset + 2 + (j - 1) * 2))) := by
  have hprod : (getu16 rec idxrec_upd_cnt_offset - 1) * ssize < 2 ^ 32 := by
    have h16 : getu16 rec idxrec_upd_cnt_offset < 65536 :=
      getu16_lt rec idxrec_upd_cnt_offset hbytes
    calc (getu16 rec idxrec_upd_cnt_offset - 1) * ssize
        ≤ 65535 * 65536 := Nat.mul_le_mul (by omega) hs2
      _ < 2 ^ 32 := by norm_num
  have hchk := fix_idxrec_check_eq (getu16 rec idxrec_upd_cnt_offset) ssize len
    hcnt hprod
  constructor
  · intro hgt
    simp only [ntfs_fix_idxrec]
    rw [hchk, if_pos (by simpa using hgt)]
  · intro hle
    have hbound : (getu16 rec idxrec_upd_cnt_offset - 1) * ssize ≤
        rec.length := by omega
    obtain ⟨pb, pc⟩ := fix_loop_spec ssize (getu16 rec idxrec_upd_off_offset)
      (getu16 rec idxrec_upd_cnt_offset)
      (getu16 rec (getu16 rec idxrec_upd_off_offset)) rec hss hlay hbound
      (getu16 rec idxrec_upd_cnt_offset - 1) 1 rec rfl (le_refl 1) rfl
      (fun _ _ => rfl) (fun _ _ => rfl) (fun j hj1 hj2 => by omega)
    constructor
    · intro hj
      simp only [ntfs_fix_idxrec]
      rw [hchk, if_neg (by simpa using hle)]
      exact pb hj
    · intro hall
      obtain ⟨rec2, heq, _, hprop⟩ := pc fun j hj1 hj2 => hall j hj1 hj2
      refine ⟨rec2, ?_, hprop⟩
      simp only [ntfs_fix_idxrec]
      rw [hchk, if_neg (by simpa using hle)]
      exact heq

/-- Witness for ntfs_fix_idxrec_spec at a concrete 16-byte record with
sector size 8 and upd_cnt 2. -/
theorem ntfs_fix_idxrec_spec_witness :
    1 ≤ getu16 [2, 0, 5, 0, 0, 0, 2, 0, 9, 9, 9, 9, 9, 9, 9, 9]
        idxrec_upd_cnt_offset ∧
    (((getu16 [2, 0, 5, 0, 0, 0, 2, 0, 9, 9, 9, 9, 9, 9, 9, 9]
          idxrec_upd_cnt_offset - 1) * 8 > 16 →
        ntfs_fix_idxrec 8 [2, 0, 5, 0, 0, 0, 2, 0, 9, 9, 9, 9, 9, 9, 9, 9] 16 =
          none) ∧
      ((getu16 [2, 0, 5, 0, 0, 0, 2, 0, 9, 9, 9, 9, 9, 9, 9, 9]
          idxrec_upd_cnt_offset - 1) * 8 ≤ 16 →
        ((∃ j, 1 ≤ j ∧
            j < getu16 [2, 0, 5, 0, 0, 0, 2, 0, 9, 9, 9, 9, 9, 9, 9, 9]
              idxrec_upd_cnt_offset ∧
            getu16 [2, 0, 5, 0, 0, 0, 2, 0, 9, 9, 9, 9, 9, 9, 9, 9]
                (j * 8 - 2) ≠
              getu16 [2, 0, 5, 0, 0, 0, 2, 0, 9, 9, 9, 9, 9, 9, 9, 9]
                (getu16 [2, 0, 5, 0, 0, 0, 2, 0, 9, 9, 9, 9, 9, 9, 9, 9]
                  idxrec_upd_off_offset)) →
          ntfs_fix_idxrec 8 [2, 0, 5, 0, 0, 0, 2, 0, 9, 9, 9, 9, 9, 9, 9, 9]
            16 = none) ∧
        ((∀ j, 1 ≤ j →
            j < getu16 [2, 0, 5, 0, 0, 0, 2, 0, 9, 9, 9, 9, 9, 9, 9, 9]
              idxrec_upd_cnt_offset →
            getu16 [2, 0, 5, 0, 0, 0, 2, 0, 9, 9, 9, 9, 9, 9, 9, 9]
                (j * 8 - 2) =
              getu16 [2, 0, 5, 0, 0, 0, 2, 0, 9, 9, 9, 9, 9, 9, 9, 9]
                (getu16 [2, 0, 5, 0, 0, 0, 2, 0, 9, 9, 9, 9, 9, 9, 9, 9]
                  idxrec_upd_off_offset)) →
          ∃ rec2,
            ntfs_fix_idxrec 8 [2, 0, 5, 0, 0, 0, 2, 0, 9, 9, 9, 9, 9, 9, 9, 9]
                16 = some rec2 ∧
            ∀ j, 1 ≤ j →
              j < getu16 [2, 0, 5, 0, 0, 0, 2, 0, 9, 9, 9, 9, 9, 9, 9, 9]
                idxrec_upd_cnt_offset →
              getu16 rec2 (j * 8 - 2) =
                getu16 [2, 0, 5, 0, 0, 0, 2, 0, 9, 9, 9, 9, 9, 9, 9, 9]
                  (getu16 [2, 0, 5, 0, 0, 0, 2, 0, 9, 9, 9, 9, 9, 9, 9, 9]
                    idxrec_upd_off_offset + 2 + (j - 1) * 2)))) :=
  ⟨by decide,
    ntfs_fix_idxrec_spec 8 [2, 0, 5, 0, 0, 0, 2, 0, 9, 9, 9, 9, 9, 9, 9, 9] 16
      (by decide) (by decide) (by decide) (by decide) (by decide) (by decide)⟩

end Ntfs
